import Mathlib

/-!
Verification of the vega-population package-management core (Go sources under
package population) against its natural-language specification.

The Go code is shallowly embedded: pure functions become Lean functions,
filesystem-touching code becomes explicit state passing over an association-list
file system together with an event trace, and fallible operations return
Except String (Go errors are plain formatted strings in this code base, so an
error is modelled as its message string).  float64 relevance scores are
modelled as rationals: the only score values the code manipulates are the
literals 0, 0.4, 0.5, 0.6, 0.7, 0.8, 1.0, which are never added or multiplied,
only compared, and those comparisons agree with the rational ones.
-/

namespace VegaPopulation

/-! ### Go string primitives -/

/-- Lower-case a string character by character; models Go strings.ToLower
(faithful on ASCII data, which is what this repository's indexes hold). -/
def goToLower (s : String) : String := ⟨s.data.map Char.toLower⟩

/-- Substring occurrence on character lists: does sub occur contiguously in s?
Models Go strings.Contains and the package's own containsString /
containsStringHelper pair in population.go, which implement the same
predicate by scanning every start offset. -/
def goContainsList : List Char → List Char → Bool
  | [], sub => sub.isEmpty
  | c :: t, sub => sub.isPrefixOf (c :: t) || goContainsList t sub

/-- Models Go strings.Contains s sub (and the package's containsString). -/
def goContains (s sub : String) : Bool := goContainsList s.data sub.data

/-- Models Go strings.EqualFold: case-insensitive string equality
(simple ASCII folding, faithful for the repository's data). -/
def goEqualFold (a b : String) : Bool := goToLower a == goToLower b

/-- Models Go strings.HasPrefix. -/
def goHasPrefix (s p : String) : Bool := p.data.isPrefixOf s.data

/-- Models Go strings.TrimPrefix: drop prefix p from s when present. -/
def goTrimPrefix (s p : String) : String :=
  if goHasPrefix s p then ⟨s.data.drop p.data.length⟩ else s

/-! ### Data model (population.go) -/

/-- ItemKind represents the type of population item (Go: string constants
KindSkill, KindPersona, KindProfile). -/
inductive ItemKind
  | skill
  | persona
  | profile
deriving DecidableEq, Repr

/-- String value of the kind (Go: the underlying string of the ItemKind
constant, as printed by the %s verb). -/
def ItemKind.str : ItemKind → String
  | .skill => "skill"
  | .persona => "persona"
  | .profile => "profile"

/-- Plural returns the plural form of the ItemKind, used in paths
(Go: ItemKind.Plural). -/
def ItemKind.plural : ItemKind → String
  | .skill => "skills"
  | .persona => "personas"
  | .profile => "profiles"

/-- IndexEntry: one entry of the skills or personas index (Go: IndexEntry). -/
structure IndexEntry where
  version : String
  description : String
  author : String
  tags : List String
  tools : List String
deriving DecidableEq, Repr

/-- ProfileIndexEntry: one entry of the profiles index (Go: ProfileIndexEntry). -/
structure ProfileIndexEntry where
  version : String
  description : String
  author : String
  persona : String
  skills : List String
deriving DecidableEq, Repr

/-- SearchOptions (Go: SearchOptions).  Go's Kind field is a string with empty
meaning all kinds; it is modelled as an Option.  Limit is a Go int. -/
structure SearchOptions where
  kind : Option ItemKind
  tags : List String
  limit : Int
deriving DecidableEq, Repr

/-- InstallOptions (Go: InstallOptions). -/
structure InstallOptions where
  force : Bool
  noDeps : Bool
  dryRun : Bool
deriving DecidableEq, Repr

/-- SearchResult (Go: SearchResult); the float64 Score is modelled as a
rational, see the file header. -/
structure SearchResult where
  kind : ItemKind
  name : String
  version : String
  description : String
  tags : List String
  score : ℚ
deriving DecidableEq, Repr

/-! ### Name parsing and formatting (population.go) -/

/-- ParseItemName parses an input string and returns the kind and name:
a leading at-sign means persona, a leading plus sign means profile,
anything else is a skill (Go: ParseItemName). -/
def ParseItemName (input : String) : ItemKind × String :=
  if goHasPrefix input "@" then (.persona, goTrimPrefix input "@")
  else if goHasPrefix input "+" then (.profile, goTrimPrefix input "+")
  else (.skill, input)

/-- FormatItemName returns the display name with the appropriate prefix
(Go: FormatItemName; the default switch case returns the bare name). -/
def FormatItemName (kind : ItemKind) (name : String) : String :=
  match kind with
  | .persona => "@" ++ name
  | .profile => "+" ++ name
  | .skill => name

/-! ### Relevance scoring (search code, calculateScore / calculateProfileScore)

The query argument arrives already lower-cased by Search, exactly as in the
Go code.  The sequential assignments with if score is less than v then
score becomes v mirror the Go statements one for one; loops with break are
expressed with List.any. -/

/-- calculateScore computes the relevance score of a skills/personas index
entry for a query (Go: calculateScore). -/
def calculateScore (query name : String) (entry : IndexEntry)
    (filterTags : List String) : ℚ :=
  if 0 < filterTags.length ∧
      ¬ filterTags.any (fun ft => entry.tags.any (fun t => goEqualFold t ft)) then 0
  else
    let nameLower := goToLower name
    let descLower := goToLower entry.description
    if nameLower = query then 1
    else
      let score : ℚ := if goContains nameLower query then 8/10 else 0
      let score : ℚ :=
        if entry.tags.any (fun t => goEqualFold t query) then
          (if score < 7/10 then 7/10 else score) else score
      let score : ℚ :=
        if entry.tags.any (fun t => goContains (goToLower t) query) then
          (if score < 6/10 then 6/10 else score) else score
      let score : ℚ :=
        if goContains descLower query then
          (if score < 5/10 then 5/10 else score) else score
      score

/-- calculateProfileScore computes the relevance score of a profiles index
entry for a query (Go: calculateProfileScore).  Profiles carry no tags, so
any non-empty tag filter yields 0. -/
def calculateProfileScore (query name : String) (entry : ProfileIndexEntry)
    (filterTags : List String) : ℚ :=
  if 0 < filterTags.length then 0
  else
    let nameLower := goToLower name
    let descLower := goToLower entry.description
    if nameLower = query then 1
    else
      let score : ℚ := if goContains nameLower query then 8/10 else 0
      let score : ℚ :=
        if goContains descLower query then
          (if score < 5/10 then 5/10 else score) else score
      let score : ℚ :=
        if entry.skills.any (fun sk => goContains (goToLower sk) query) then
          (if score < 4/10 then 4/10 else score) else score
      let score : ℚ :=
        if goContains (goToLower entry.persona) query then
          (if score < 4/10 then 4/10 else score) else score
      score

/-! ### Search (Search function of the search source file)

Go iterates the three kinds in the fixed order skill, persona, profile
(or just the requested kind), collects every entry whose score is positive,
sorts with sort.Slice under the comparator score-descending then
name-ascending, and applies the limit.  Index maps are modelled as
association lists; map enumeration order is arbitrary, which is why the
stability claim quantifies over permutations of these lists.  The sort is
modelled by the stable List.mergeSort under the non-strict version of the
Go comparator (le a b holds when a need not come after b). -/

/-- The three index maps a Search call draws from, as association lists. -/
structure Indexes where
  skills : List (String × IndexEntry)
  personas : List (String × IndexEntry)
  profiles : List (String × ProfileIndexEntry)
deriving DecidableEq, Repr

/-- Build the SearchResult for one skills/personas index entry, or none when
its score is zero (the append-if-positive step of Search's loop). -/
def entryResult (q : String) (ftags : List String) (k : ItemKind)
    (p : String × IndexEntry) : Option SearchResult :=
  let sc := calculateScore q p.1 p.2 ftags
  if 0 < sc then
    some ⟨k, p.1, p.2.version, p.2.description, p.2.tags, sc⟩
  else none

/-- Build the SearchResult for one profiles index entry, or none when its
score is zero; profiles carry an empty tag list in results (Go passes nil). -/
def profileResult (q : String) (ftags : List String)
    (p : String × ProfileIndexEntry) : Option SearchResult :=
  let sc := calculateProfileScore q p.1 p.2 ftags
  if 0 < sc then
    some ⟨.profile, p.1, p.2.version, p.2.description, [], sc⟩
  else none

/-- All positive-score results contributed by one kind. -/
def kindBlock (idx : Indexes) (q : String) (ftags : List String) :
    ItemKind → List SearchResult
  | .skill => idx.skills.filterMap (entryResult q ftags .skill)
  | .persona => idx.personas.filterMap (entryResult q ftags .persona)
  | .profile => idx.profiles.filterMap (profileResult q ftags)

/-- The kinds a Search call visits, in the code's fixed order. -/
def searchKinds (opts : SearchOptions) : List ItemKind :=
  match opts.kind with
  | none => [.skill, .persona, .profile]
  | some k => [k]

/-- The unsorted result list accumulated by Search's loops. -/
def searchCandidates (idx : Indexes) (query : String)
    (opts : SearchOptions) : List SearchResult :=
  (searchKinds opts).flatMap (kindBlock idx (goToLower query) opts.tags)

/-- The sort comparator, as the non-strict form used by mergeSort:
resLE a b states that a may come before b, which is exactly the negation of
the Go sort.Slice less-predicate applied as less b a. -/
def resLE (a b : SearchResult) : Bool :=
  decide (b.score < a.score) || (decide (a.score = b.score) && decide (a.name ≤ b.name))

/-- Search: score, filter, rank and truncate (Go: Search).  The getIndex
fetch layer is abstracted away: the function is given the parsed indexes.
The sort step uses the stable mergeSort, which realizes one admissible
behavior of Go's sort.Slice; sort.Slice itself is documented as not
stable, so the order of comparator-tied results is unspecified in Go.
The relation sortSliceSpec below captures every admissible sort.Slice
outcome, and the ordering/determinism claim is settled over it; the
properties stated through this deterministic function (positive scores,
profile exclusion, limit truncation) hold for any tie order and so do not
depend on the choice of sort. -/
def Search (idx : Indexes) (query : String) (opts : SearchOptions) :
    List SearchResult :=
  let ranked := (searchCandidates idx query opts).mergeSort resLE
  if 0 < opts.limit ∧ opts.limit < (ranked.length : Int) then
    ranked.take opts.limit.toNat
  else ranked

/-- What Go's sort.Slice guarantees of the slice it leaves behind, and
nothing more: it is some permutation of the input that is pairwise ordered
by the non-strict complement of the less-comparator.  Because sort.Slice
is documented as not stable, every list satisfying this relation is an
admissible outcome: the relative order of comparator-tied elements is
unspecified. -/
def sortSliceSpec (l out : List SearchResult) : Prop :=
  out.Perm l ∧ out.Pairwise (fun a b => resLE a b = true)

/-- Every list a Search call may return: an admissible sort.Slice outcome
of the candidate list, truncated by the limit exactly as the code does. -/
def SearchOutcome (idx : Indexes) (query : String) (opts : SearchOptions)
    (out : List SearchResult) : Prop :=
  ∃ ranked, sortSliceSpec (searchCandidates idx query opts) ranked ∧
    out = (if 0 < opts.limit ∧ opts.limit < (ranked.length : Int) then
      ranked.take opts.limit.toNat
    else ranked)

/-! ### Installer model (population.go: Install, installProfileDeps)

The install directory is modelled as an association list from paths (lists of
path components, as produced by filepath.Join) to file contents.  Source
fetches (GetManifestRaw) and the profiles index fetch (getIndex) are
abstracted as oracles in a SourceEnv, since they read the source side, not
the install directory.  Every install call returns its result, the new file
system, and a trace of the externally visible events it performed, in order:
the trace is what the temporal claims are stated over. -/

/-- The install directory's files: path components mapped to contents. -/
def FS := List (List String × String)

instance : DecidableEq FS := by unfold FS; infer_instance

/-- Look a path up in the file system (models a successful os.Stat plus
os.ReadFile of an existing file; none models stat failure / absence). -/
def fsLookup (fs : FS) (p : List String) : Option String :=
  match fs with
  | [] => none
  | (q, c) :: rest => if q = p then some c else fsLookup rest p

/-- Write a file, overwriting any previous entry (models os.WriteFile after
os.MkdirAll; directories are implicit in this file-map model, and MkdirAll
is only ever reached together with WriteFile in the code). -/
def fsWrite (fs : FS) (p : List String) (c : String) : FS :=
  match fs with
  | [] => [(p, c)]
  | (q, c') :: rest => if q = p then (p, c) :: rest else (q, c') :: fsWrite rest p c

/-- Destination manifest path: installDir/plural/name/vega.yaml
(Go: filepath.Join(installDir, kind.Plural(), name) joined with vega.yaml). -/
def destPath (installDir : String) (kind : ItemKind) (name : String) :
    List String :=
  [installDir, kind.plural, name, "vega.yaml"]

/-- Externally visible events of an install call, in execution order. -/
inductive Event
  | fetch (kind : ItemKind) (name : String)
  | write (path : List String) (content : String)
  | depInstall (kind : ItemKind) (name : String) (opts : InstallOptions)
deriving DecidableEq

deriving instance DecidableEq for Except

/-- Result bundle of an install-layer call. -/
structure InstallOut where
  res : Except String Unit
  fs : FS
  trace : List Event
deriving DecidableEq

/-- Source-side oracle: what GetManifestRaw and getIndex(profile) return.
These read the source repository (local dir or HTTP), never the install
directory, so they are independent of the FS state. -/
structure SourceEnv where
  fetchManifest : ItemKind → String → Except String String
  profilesIndex : Except String (List (String × ProfileIndexEntry))

/-- Message of the already-installed failure (Go: fmt.Errorf with verbs
%s %q applied to kind and name; %q renders the name in quotes). -/
def alreadyInstalledMsg (kind : ItemKind) (name : String) : String :=
  kind.str ++ " \"" ++ name ++ "\" is already installed (use --force to overwrite)"

/-- Message wrapping a manifest-fetch failure (Go: fmt.Errorf fetching %s %q). -/
def fetchWrapMsg (kind : ItemKind) (name : String) (e : String) : String :=
  "fetching " ++ kind.str ++ " \"" ++ name ++ "\": " ++ e

/-- Message wrapping a failed dependency install (Go: fmt.Errorf
installing persona %q / installing skill %q inside installProfileDeps). -/
def depWrapMsg (kind : ItemKind) (name : String) (e : String) : String :=
  "installing " ++ kind.str ++ " \"" ++ name ++ "\": " ++ e

/-- Message for a profile missing from the profiles index. -/
def profileNotFoundMsg (name : String) : String :=
  "profile \"" ++ name ++ "\" not found"

/-- isAlreadyInstalledError checks whether an error is an already-installed
error, by substring search in its message (Go: isAlreadyInstalledError,
which calls containsString(err.Error(), already installed)). -/
def isAlreadyInstalledError (e : String) : Bool :=
  goContains e "already installed"

/-- The body of Install without the profile-dependency branch.  Dependencies
are installed through this function: installProfileDeps always calls Install
with NoDeps forced true and kind persona or skill, for which the full
Install body reduces to exactly this (the profile-deps conditional is
vacuously false), so the one-level recursion of the Go code is unfolded. -/
def installLeaf (env : SourceEnv) (kind : ItemKind) (name installDir : String)
    (opts : InstallOptions) (fs : FS) : InstallOut :=
  let dest := destPath installDir kind name
  if (fsLookup fs dest).isSome ∧ opts.force = false then
    ⟨.error (alreadyInstalledMsg kind name), fs, []⟩
  else
    match env.fetchManifest kind name with
    | .error e => ⟨.error (fetchWrapMsg kind name e), fs, [.fetch kind name]⟩
    | .ok content =>
      if opts.dryRun then ⟨.ok (), fs, [.fetch kind name]⟩
      else ⟨.ok (), fsWrite fs dest content, [.fetch kind name, .write dest content]⟩

/-- Options a dependency is installed with: same force and dryRun as the
parent call, NoDeps forced true (Go: the depOpts literals in
installProfileDeps). -/
def depOptsOf (opts : InstallOptions) : InstallOptions :=
  ⟨opts.force, true, opts.dryRun⟩

/-- The dependency list of a profile, in installation order: the referenced
persona first when non-empty, then the listed skills in order (Go:
installProfileDeps installs profile.Persona, then ranges over
profile.Skills). -/
def profileDeps (p : ProfileIndexEntry) : List (ItemKind × String) :=
  (if p.persona = "" then [] else [(.persona, p.persona)]) ++
    p.skills.map (fun s => (.skill, s))

/-- Sequentially install a list of dependencies (the two dependency loops of
installProfileDeps, flattened over profileDeps).  A failing dependency whose
error passes isAlreadyInstalledError while force is unset is swallowed and
processing continues; any other failure aborts immediately with the
dependency-identifying wrapped message. -/
def processDeps (env : SourceEnv) (installDir : String) (opts : InstallOptions) :
    List (ItemKind × String) → FS → InstallOut
  | [], fs => ⟨.ok (), fs, []⟩
  | (k, n) :: rest, fs =>
    let out := installLeaf env k n installDir (depOptsOf opts) fs
    let tr := Event.depInstall k n (depOptsOf opts) :: out.trace
    match out.res with
    | .ok _ =>
      let next := processDeps env installDir opts rest out.fs
      ⟨next.res, next.fs, tr ++ next.trace⟩
    | .error e =>
      if opts.force = false ∧ isAlreadyInstalledError e then
        let next := processDeps env installDir opts rest out.fs
        ⟨next.res, next.fs, tr ++ next.trace⟩
      else ⟨.error (depWrapMsg k n e), out.fs, tr⟩

/-- installProfileDeps: resolve the profile in the profiles index and install
its dependencies (Go: installProfileDeps).  An index failure is returned
unwrapped; an absent profile yields the not-found error. -/
def installProfileDeps (env : SourceEnv) (profileName installDir : String)
    (opts : InstallOptions) (fs : FS) : InstallOut :=
  match env.profilesIndex with
  | .error e => ⟨.error e, fs, []⟩
  | .ok profiles =>
    match List.lookup profileName profiles with
    | none => ⟨.error (profileNotFoundMsg profileName), fs, []⟩
    | some p => processDeps env installDir opts (profileDeps p) fs

/-- Install (Go: Source.Install): check the destination, handle profile
dependencies, fetch the manifest, then stop (dry run) or write. -/
def Install (env : SourceEnv) (kind : ItemKind) (name installDir : String)
    (opts : InstallOptions) (fs : FS) : InstallOut :=
  let dest := destPath installDir kind name
  if (fsLookup fs dest).isSome ∧ opts.force = false then
    ⟨.error (alreadyInstalledMsg kind name), fs, []⟩
  else
    let depOut : InstallOut :=
      if kind = .profile ∧ opts.noDeps = false then
        installProfileDeps env name installDir opts fs
      else ⟨.ok (), fs, []⟩
    match depOut.res with
    | .error e => ⟨.error e, depOut.fs, depOut.trace⟩
    | .ok _ =>
      match env.fetchManifest kind name with
      | .error e =>
        ⟨.error (fetchWrapMsg kind name e), depOut.fs, depOut.trace ++ [.fetch kind name]⟩
      | .ok content =>
        if opts.dryRun then ⟨.ok (), depOut.fs, depOut.trace ++ [.fetch kind name]⟩
        else
          ⟨.ok (), fsWrite depOut.fs dest content,
            depOut.trace ++ [.fetch kind name, .write dest content]⟩

/-! ### Cache model (population.go: Cache.Get; source file: getIndex)

Cache.Get's Go signature returns a byte slice and a bool and has no error
component at all; it is modelled as an Option, none being the miss case.
The stat and read system calls are oracles: statMod is the file's
modification time when stat succeeds, readRes the content when reading
succeeds.  Times are integers (nanoseconds); time.Since(mod) is now - mod. -/

/-- Cache configuration: the disabled flag and the TTL (Go: Cache fields). -/
structure CacheCfg where
  disabled : Bool
  ttl : Int
deriving DecidableEq, Repr

/-- cacheGet models Cache.Get: disabled, stat failure, expiry, and read
failure each yield a miss; otherwise the read content is a hit. -/
def cacheGet (c : CacheCfg) (statMod : Option Int) (now : Int)
    (readRes : Option String) : Option String :=
  if c.disabled then none
  else
    match statMod with
    | none => none
    | some m => if c.ttl < now - m then none else readRes

/-- Parsed index pair as returned by parseIndex: entries for skills or
personas, profile entries for profiles. -/
def ParsedIndex :=
  List (String × IndexEntry) × List (String × ProfileIndexEntry)

instance : DecidableEq ParsedIndex := by unfold ParsedIndex; infer_instance

/-- getIndex (the source file's getIndex): on a cache hit parse the cached
bytes; on a miss fetch, write through to the cache best-effort - the set
result is received but never consulted - and parse the fetched bytes. -/
def getIndex (cacheRes : Option String) (fetchRes : Except String String)
    (setRes : Except String Unit) (parse : String → Except String ParsedIndex) :
    Except String ParsedIndex :=
  match cacheRes with
  | some content => parse content
  | none =>
    match fetchRes with
    | .error e => .error e
    | .ok content =>
      match setRes with
      | .error _ => parse content
      | .ok _ => parse content

/-! ### Specification-side definitions used to state the claims -/

/-- The capability/persona scoring rule exactly as the specification words
it: tag-filter exclusion, exact-match short-circuit, then the maximum of
the applicable candidates 0.8 / 0.7 / 0.6 / 0.5, and 0 when none apply. -/
def claimEntryScore (query name : String) (entry : IndexEntry)
    (filterTags : List String) : ℚ :=
  if filterTags ≠ [] ∧
      ¬ filterTags.any (fun ft => entry.tags.any (fun t => goEqualFold t ft)) then 0
  else if goToLower name = query then 1
  else
    max (max (max (if goContains (goToLower name) query then 8/10 else 0)
        (if entry.tags.any (fun t => goEqualFold t query) then 7/10 else 0))
        (if entry.tags.any (fun t => goContains (goToLower t) query) then 6/10 else 0))
      (if goContains (goToLower entry.description) query then 5/10 else 0)

/-- Rank of a kind in the fixed enumeration order of Search. -/
def kindRank : ItemKind → Nat
  | .skill => 0
  | .persona => 1
  | .profile => 2

/-- The result ordering the specification claims: strictly descending
score, with score ties in ascending (non-strict, so that equal names of
different kinds are covered) name order. -/
def resOrder (a b : SearchResult) : Prop :=
  b.score < a.score ∨ (a.score = b.score ∧ a.name ≤ b.name)

/-- The strict ordering the claim asserts: strictly descending score, with
score ties broken by strictly ascending name. -/
def resOrderStrict (a b : SearchResult) : Prop :=
  b.score < a.score ∨ (a.score = b.score ∧ a.name < b.name)

/-- Project the dependency-install events out of a trace. -/
def depProj : Event → Option (ItemKind × String × InstallOptions)
  | .depInstall k n o => some (k, n, o)
  | _ => none

/-- Concrete source oracle whose manifest fetches all succeed. -/
def okEnv : SourceEnv := ⟨fun _ _ => .ok "kind: skill", .ok []⟩

/-- Concrete source oracle whose manifest fetches all fail with a transport
message. -/
def failEnv : SourceEnv := ⟨fun _ _ => .error "connection refused", .ok []⟩

/-- Concrete source oracle with one profile naming a persona and one skill. -/
def profEnv : SourceEnv :=
  ⟨fun _ _ => .ok "m", .ok [("p", ⟨"1", "d", "a", "per", ["s1"]⟩)]⟩

/-- The empty index triple, used by witnesses. -/
def emptyIdx : Indexes := ⟨[], [], []⟩

/-! ### Helper lemmas -/

theorem goHasPrefix_append (p s : String) : goHasPrefix (p ++ s) p = true := by
  unfold goHasPrefix
  rw [String.data_append]
  exact List.isPrefixOf_iff_prefix.mpr (List.prefix_append p.data s.data)

theorem goTrimPrefix_append (p s : String) : goTrimPrefix (p ++ s) p = s := by
  rw [goTrimPrefix, if_pos (goHasPrefix_append p s), String.data_append,
    List.drop_left]

theorem goHasPrefix_plus_at (name : String) :
    goHasPrefix ("+" ++ name) "@" = false := by
  unfold goHasPrefix
  rw [String.data_append]
  show List.isPrefixOf ['@'] ('+' :: name.data) = false
  simp [List.isPrefixOf]

/-! ### Claim C10 -/

/-- Claim C10: for every kind and every name that does not begin with the
at-sign or plus-sign prefix, ParseItemName inverts FormatItemName: the
prefix encoding of kinds round-trips. -/
theorem c10_parse_format_roundtrip (kind : ItemKind) (name : String)
    (h1 : goHasPrefix name "@" = false) (h2 : goHasPrefix name "+" = false) :
    ParseItemName (FormatItemName kind name) = (kind, name) := by
  cases kind
  · show ParseItemName name = (.skill, name)
    unfold ParseItemName
    rw [h1, h2]
    rfl
  · show ParseItemName ("@" ++ name) = (.persona, name)
    unfold ParseItemName
    rw [goHasPrefix_append, goTrimPrefix_append]
    rfl
  · show ParseItemName ("+" ++ name) = (.profile, name)
    unfold ParseItemName
    rw [goHasPrefix_plus_at, goHasPrefix_append, goTrimPrefix_append]
    rfl

/-- Witness for C10 at a concrete kind and name. -/
theorem c10_parse_format_roundtrip_witness :
    goHasPrefix "incident-commander" "@" = false ∧
    goHasPrefix "incident-commander" "+" = false ∧
    ParseItemName (FormatItemName .persona "incident-commander") =
      (.persona, "incident-commander") :=
  ⟨by decide, by decide,
    c10_parse_format_roundtrip .persona "incident-commander" (by decide) (by decide)⟩

/-! ### Claim C9 -/

/-- Claim C9: a positive limit N truncates the ranked list to its first
min(N, matchCount) elements, preserving rank order (the output is literally
a prefix of the untruncated output), and limit zero returns the whole
ranked match list. -/
theorem c9_search_limit (idx : Indexes) (query : String) (k : Option ItemKind)
    (tags : List String) (N : Int) (hN : 0 < N) :
    Search idx query ⟨k, tags, N⟩ = (Search idx query ⟨k, tags, 0⟩).take N.toNat ∧
    (Search idx query ⟨k, tags, N⟩).length =
      min N.toNat (Search idx query ⟨k, tags, 0⟩).length ∧
    Search idx query ⟨k, tags, 0⟩ =
      (searchCandidates idx query ⟨k, tags, 0⟩).mergeSort resLE := by
  have hfull : Search idx query ⟨k, tags, 0⟩ =
      (searchCandidates idx query ⟨k, tags, 0⟩).mergeSort resLE := by
    unfold Search
    norm_num
  have hcand : searchCandidates idx query ⟨k, tags, N⟩ =
      searchCandidates idx query ⟨k, tags, 0⟩ := rfl
  have hmain : Search idx query ⟨k, tags, N⟩ =
      (Search idx query ⟨k, tags, 0⟩).take N.toNat := by
    rw [hfull]
    unfold Search
    rw [hcand]
    set ranked := (searchCandidates idx query ⟨k, tags, 0⟩).mergeSort resLE with hr
    by_cases hlt : (N : Int) < (ranked.length : Int)
    · rw [if_pos ⟨hN, hlt⟩]
    · rw [if_neg (by intro hc; exact hlt hc.2)]
      rw [List.take_of_length_le]
      omega
  refine ⟨hmain, ?_, hfull⟩
  rw [hmain, List.length_take]

/-- Witness for C9 at a concrete index, query and limit. -/
theorem c9_search_limit_witness :
    Search emptyIdx "q" ⟨none, [], 3⟩ = (Search emptyIdx "q" ⟨none, [], 0⟩).take 3 ∧
    (Search emptyIdx "q" ⟨none, [], 3⟩).length =
      min (Int.toNat 3) (Search emptyIdx "q" ⟨none, [], 0⟩).length ∧
    Search emptyIdx "q" ⟨none, [], 0⟩ =
      (searchCandidates emptyIdx "q" ⟨none, [], 0⟩).mergeSort resLE :=
  c9_search_limit emptyIdx "q" none [] 3 (by decide)

/-! ### Claim C8 -/

/-- Claim C8: Cache.Get never surfaces an error (its Go type has no error
component; the model returns an Option): the disabled flag, a stat
failure, TTL expiry - even with the file present and readable - and a read
failure each give a miss; and getIndex returns the parsed fetched index
regardless of the outcome of the write-through cache Set. -/
theorem c8_cache_miss_semantics :
    (∀ (c : CacheCfg) statMod now readRes, c.disabled = true →
      cacheGet c statMod now readRes = none) ∧
    (∀ (c : CacheCfg) now readRes, cacheGet c none now readRes = none) ∧
    (∀ (c : CacheCfg) m now content, c.ttl < now - m →
      cacheGet c (some m) now (some content) = none) ∧
    (∀ (c : CacheCfg) m now, cacheGet c (some m) now none = none) ∧
    (∀ fetched setRes parse,
      getIndex none (.ok fetched) setRes parse = parse fetched) := by
  refine ⟨?_, ?_, ?_, ?_, ?_⟩
  · intro c statMod now readRes h
    unfold cacheGet
    rw [if_pos h]
  · intro c now readRes
    unfold cacheGet
    split <;> rfl
  · intro c m now content h
    unfold cacheGet
    split
    · rfl
    · simp [h]
  · intro c m now
    unfold cacheGet
    split
    · rfl
    · simp
  · intro fetched setRes parse
    unfold getIndex
    cases setRes <;> rfl

/-- Witness for C8 at concrete cache states: a disabled cache, a stat
failure, an expired entry whose file is present and readable, a read
failure, and a getIndex call whose cache write fails. -/
theorem c8_cache_miss_semantics_witness :
    cacheGet ⟨true, 3600⟩ (some 0) 0 (some "x") = none ∧
    cacheGet ⟨false, 3600⟩ none 0 (some "x") = none ∧
    cacheGet ⟨false, 3600⟩ (some 0) 7200 (some "x") = none ∧
    cacheGet ⟨false, 3600⟩ (some 0) 10 none = none ∧
    getIndex none (.ok "raw") (.error "disk full") (fun s => .ok ([("n", ⟨s, "", "", [], []⟩)], [])) =
      .ok ([("n", ⟨"raw", "", "", [], []⟩)], []) :=
  ⟨c8_cache_miss_semantics.1 ⟨true, 3600⟩ (some 0) 0 (some "x") rfl,
   c8_cache_miss_semantics.2.1 ⟨false, 3600⟩ 0 (some "x"),
   c8_cache_miss_semantics.2.2.1 ⟨false, 3600⟩ 0 7200 "x" (by decide),
   c8_cache_miss_semantics.2.2.2.1 ⟨false, 3600⟩ 0 10,
   c8_cache_miss_semantics.2.2.2.2 "raw" (.error "disk full") _⟩

/-! ### Claim C5 -/

theorem installLeaf_dryRun_fs (env : SourceEnv) (kind : ItemKind)
    (name dir : String) (opts : InstallOptions) (fs : FS)
    (h : opts.dryRun = true) : (installLeaf env kind name dir opts fs).fs = fs := by
  by_cases hg : (fsLookup fs (destPath dir kind name)).isSome = true ∧ opts.force = false
  · simp only [installLeaf, if_pos hg]
  · cases hfetch : env.fetchManifest kind name with
    | error e => simp only [installLeaf, if_neg hg, hfetch]
    | ok content => simp only [installLeaf, if_neg hg, hfetch, h, if_pos]

theorem processDeps_dryRun_fs (env : SourceEnv) (dir : String)
    (opts : InstallOptions) (h : opts.dryRun = true) :
    ∀ (deps : List (ItemKind × String)) (fs : FS),
      (processDeps env dir opts deps fs).fs = fs
  | [], fs => rfl
  | (k, n) :: rest, fs => by
    have hleaf : (installLeaf env k n dir (depOptsOf opts) fs).fs = fs :=
      installLeaf_dryRun_fs env k n dir (depOptsOf opts) fs (by simp [depOptsOf, h])
    have ih := processDeps_dryRun_fs env dir opts h rest
      (installLeaf env k n dir (depOptsOf opts) fs).fs
    simp only [processDeps]
    cases hres : (installLeaf env k n dir (depOptsOf opts) fs).res with
    | ok v =>
      simp only [hres]
      rw [ih, hleaf]
    | error e =>
      simp only [hres]
      by_cases hsw : opts.force = false ∧ isAlreadyInstalledError e = true
      · rw [if_pos hsw]
        rw [ih, hleaf]
      · rw [if_neg hsw]
        exact hleaf

theorem installProfileDeps_dryRun_fs (env : SourceEnv) (name dir : String)
    (opts : InstallOptions) (fs : FS) (h : opts.dryRun = true) :
    (installProfileDeps env name dir opts fs).fs = fs := by
  unfold installProfileDeps
  split
  · rfl
  · split
    · rfl
    · exact processDeps_dryRun_fs env dir opts h _ fs

/-- Claim C5: with DryRun set, no install invocation - a direct install of
any kind, and every dependency install a profile triggers - changes the
install directory: the file system after the call equals the one before. -/
theorem c5_dryRun_no_mutation (env : SourceEnv) (kind : ItemKind)
    (name dir : String) (opts : InstallOptions) (fs : FS)
    (h : opts.dryRun = true) : (Install env kind name dir opts fs).fs = fs := by
  by_cases hg : (fsLookup fs (destPath dir kind name)).isSome = true ∧ opts.force = false
  · simp only [Install, if_pos hg]
  · have hdep : (if kind = .profile ∧ opts.noDeps = false then
        installProfileDeps env name dir opts fs
      else ⟨.ok (), fs, []⟩).fs = fs := by
      split
      · exact installProfileDeps_dryRun_fs env name dir opts fs h
      · rfl
    simp only [Install, if_neg hg]
    cases hres : (if kind = .profile ∧ opts.noDeps = false then
        installProfileDeps env name dir opts fs
      else ⟨.ok (), fs, []⟩).res with
    | error e => simp only [hres]; exact hdep
    | ok v =>
      simp only [hres]
      cases hfetch : env.fetchManifest kind name with
      | error e => simp only [hfetch]; exact hdep
      | ok content => simp only [hfetch, h, if_pos]; exact hdep

/-- Witness for C5: a dry-run profile install with dependencies over a
concrete environment leaves the concrete file system unchanged. -/
theorem c5_dryRun_no_mutation_witness :
    (Install profEnv .profile "p" "home" ⟨false, false, true⟩ []).fs = [] :=
  c5_dryRun_no_mutation profEnv .profile "p" "home" ⟨false, false, true⟩ [] rfl

/-! ### Search membership lemmas -/

theorem entryResult_some (q : String) (t : List String) (k : ItemKind)
    (p : String × IndexEntry) (r : SearchResult)
    (h : entryResult q t k p = some r) :
    0 < r.score ∧ r.kind = k ∧ r.name = p.1 := by
  simp only [entryResult] at h
  split at h
  · injection h with h
    subst h
    exact ⟨by assumption, rfl, rfl⟩
  · cases h

theorem profileResult_some (q : String) (t : List String)
    (p : String × ProfileIndexEntry) (r : SearchResult)
    (h : profileResult q t p = some r) :
    0 < r.score ∧ r.kind = .profile ∧ r.name = p.1 := by
  simp only [profileResult] at h
  split at h
  · injection h with h
    subst h
    exact ⟨by assumption, rfl, rfl⟩
  · cases h

theorem mem_kindBlock (idx : Indexes) (q : String) (t : List String)
    (k : ItemKind) (r : SearchResult) (h : r ∈ kindBlock idx q t k) :
    0 < r.score ∧ r.kind = k := by
  cases k
  · simp only [kindBlock, List.mem_filterMap] at h
    obtain ⟨a, _, heq⟩ := h
    obtain ⟨h1, h2, _⟩ := entryResult_some _ _ _ _ _ heq
    exact ⟨h1, h2⟩
  · simp only [kindBlock, List.mem_filterMap] at h
    obtain ⟨a, _, heq⟩ := h
    obtain ⟨h1, h2, _⟩ := entryResult_some _ _ _ _ _ heq
    exact ⟨h1, h2⟩
  · simp only [kindBlock, List.mem_filterMap] at h
    obtain ⟨a, _, heq⟩ := h
    obtain ⟨h1, h2, _⟩ := profileResult_some _ _ _ _ heq
    exact ⟨h1, h2⟩

theorem mem_search_mem_candidates (idx : Indexes) (query : String)
    (opts : SearchOptions) (r : SearchResult) (h : r ∈ Search idx query opts) :
    r ∈ searchCandidates idx query opts := by
  simp only [Search] at h
  split at h
  · exact List.mem_mergeSort.mp (List.mem_of_mem_take h)
  · exact List.mem_mergeSort.mp h

/-! ### Claim C2 -/

/-- Step lemma: Go's sequential update, raise score to v when the guard
holds and score is below v, equals taking a maximum with the guarded
candidate, provided the running score is non-negative. -/
theorem score_step (c : Bool) (s v : ℚ) (hs : 0 ≤ s) :
    (if c then (if s < v then v else s) else s) = max s (if c then v else 0) := by
  cases c
  · simp [max_eq_left hs]
  · simp only [if_pos]
    rcases lt_or_le s v with hlt | hle
    · simp [if_pos hlt, max_eq_right (le_of_lt hlt)]
    · simp [if_neg (not_lt.mpr hle), max_eq_left hle]

/-- Claim C2: the capability/persona score is 0 on a failed non-empty tag
filter, 1.0 on exact lower-cased name equality, and otherwise the maximum
of the applicable candidates 0.8 (name contains), 0.7 (tag equals),
0.6 (tag contains), 0.5 (description contains), 0 when none apply; zero
scorers never reach the result list; and the kubernetes-ops example scores
exactly 0.8. -/
theorem c2_calculateScore_spec :
    (∀ query name entry filterTags,
      calculateScore query name entry filterTags =
        claimEntryScore query name entry filterTags) ∧
    (∀ idx query opts r, r ∈ Search idx query opts → 0 < r.score) ∧
    calculateScore "kubernetes" "kubernetes-ops"
      ⟨"1.0.0", "Kubernetes cluster management", "", ["k8s", "cluster"], []⟩ []
      = 8/10 := by
  refine ⟨?_, ?_, ?_⟩
  · intro query name entry filterTags
    simp only [calculateScore, claimEntryScore, List.length_pos]
    by_cases h0 : filterTags ≠ [] ∧
        ¬ filterTags.any (fun ft => entry.tags.any fun t => goEqualFold t ft) = true
    · rw [if_pos h0, if_pos h0]
    · rw [if_neg h0, if_neg h0]
      by_cases h1 : goToLower name = query
      · rw [if_pos h1, if_pos h1]
      · rw [if_neg h1, if_neg h1]
        have h8 : (0:ℚ) ≤ if goContains (goToLower name) query then 8/10 else 0 := by
          split <;> norm_num
        rw [score_step _ _ _ h8]
        have h7 : (0:ℚ) ≤ max (if goContains (goToLower name) query then 8/10 else 0)
            (if entry.tags.any (fun t => goEqualFold t query) then 7/10 else 0) :=
          le_trans h8 (le_max_left _ _)
        rw [score_step _ _ _ h7]
        have h6 : (0:ℚ) ≤ max (max (if goContains (goToLower name) query then 8/10 else 0)
            (if entry.tags.any (fun t => goEqualFold t query) then 7/10 else 0))
            (if entry.tags.any (fun t => goContains (goToLower t) query) then 6/10 else 0) :=
          le_trans h7 (le_max_left _ _)
        rw [score_step _ _ _ h6]
  · intro idx query opts r h
    have hc := mem_search_mem_candidates idx query opts r h
    simp only [searchCandidates, List.mem_flatMap] at hc
    obtain ⟨k, _, hb⟩ := hc
    exact (mem_kindBlock idx _ opts.tags k r hb).1
  · have h8 : goContains (goToLower "kubernetes-ops") "kubernetes" = true := by decide
    have h7 : (["k8s", "cluster"] : List String).any
        (fun t => goEqualFold t "kubernetes") = false := by decide
    have h6 : (["k8s", "cluster"] : List String).any
        (fun t => goContains (goToLower t) "kubernetes") = false := by decide
    have h5 : goContains (goToLower "Kubernetes cluster management") "kubernetes" = true := by
      decide
    have h1 : ¬ (goToLower "kubernetes-ops" = "kubernetes") := by decide
    simp only [calculateScore]
    norm_num [h8, h7, h6, h5, h1]

/-- Evaluation of Search on a concrete one-entry index (the sort cannot be
evaluated by kernel reduction, so this is established through the
mergeSort simp lemmas). -/
theorem search_kube_eval :
    Search ⟨[("kube", ⟨"1", "d", "a", [], []⟩)], [], []⟩ "kube" ⟨none, [], 0⟩ =
      [⟨.skill, "kube", "1", "d", [], 1⟩] := by
  have hq : goToLower "kube" = "kube" := by decide
  have hsc : calculateScore "kube" "kube" ⟨"1", "d", "a", [], []⟩ [] = 1 := by
    simp [calculateScore, hq]
  simp [Search, searchCandidates, searchKinds, kindBlock, entryResult, hq, hsc]

/-- Witness for C2: a concrete result of a concrete search has positive
score, via the exclusion conjunct of the claim theorem. -/
theorem c2_calculateScore_spec_witness :
    (⟨.skill, "kube", "1", "d", [], 1⟩ : SearchResult) ∈
      Search ⟨[("kube", ⟨"1", "d", "a", [], []⟩)], [], []⟩ "kube" ⟨none, [], 0⟩ ∧
    0 < (⟨.skill, "kube", "1", "d", [], 1⟩ : SearchResult).score :=
  ⟨by rw [search_kube_eval]; exact List.mem_singleton.mpr rfl,
   c2_calculateScore_spec.2.1 ⟨[("kube", ⟨"1", "d", "a", [], []⟩)], [], []⟩
     "kube" ⟨none, [], 0⟩ ⟨.skill, "kube", "1", "d", [], 1⟩
     (by rw [search_kube_eval]; exact List.mem_singleton.mpr rfl)⟩

/-! ### Claim C7 -/

/-- Claim C7: under a non-empty tag filter, a capability/persona entry with
no case-insensitively matching tag scores 0 (is excluded), every profile
entry scores 0, and consequently a tag-filtered search never returns a
profile result. -/
theorem c7_tag_filter :
    (∀ query name entry filterTags, filterTags ≠ [] →
      (∀ ft ∈ filterTags, ∀ t ∈ entry.tags, goEqualFold t ft = false) →
      calculateScore query name entry filterTags = 0) ∧
    (∀ query name p filterTags, filterTags ≠ [] →
      calculateProfileScore query name p filterTags = 0) ∧
    (∀ idx query opts r, opts.tags ≠ [] → r ∈ Search idx query opts →
      r.kind ≠ .profile) := by
  have hprof : ∀ (query name : String) (p : ProfileIndexEntry)
      (filterTags : List String), filterTags ≠ [] →
      calculateProfileScore query name p filterTags = 0 := by
    intro query name p filterTags hne
    simp only [calculateProfileScore]
    rw [if_pos (List.length_pos.mpr hne)]
  refine ⟨?_, hprof, ?_⟩
  · intro query name entry filterTags hne h
    have hany : ¬ filterTags.any (fun ft => entry.tags.any fun t => goEqualFold t ft) = true := by
      simp only [List.any_eq_true]
      push_neg
      intro ft hft t ht
      simp [h ft hft t ht]
    simp only [calculateScore]
    rw [if_pos ⟨List.length_pos.mpr hne, hany⟩]
  · intro idx query opts r htags hr hkprof
    have hc := mem_search_mem_candidates idx query opts r hr
    simp only [searchCandidates, List.mem_flatMap] at hc
    obtain ⟨k, _, hb⟩ := hc
    have hk := (mem_kindBlock idx _ opts.tags k r hb).2
    rw [hkprof] at hk
    subst hk
    simp only [kindBlock, List.mem_filterMap] at hb
    obtain ⟨p, _, heq⟩ := hb
    simp only [profileResult] at heq
    rw [hprof _ _ _ _ htags] at heq
    simp [lt_irrefl] at heq

/-- Evaluation of a concrete tag-filtered Search with one matching entry. -/
theorem search_tagged_eval :
    Search ⟨[("n", ⟨"1", "d", "a", ["go"], []⟩)], [], []⟩ "n" ⟨none, ["go"], 0⟩ =
      [⟨.skill, "n", "1", "d", ["go"], 1⟩] := by
  have hq : goToLower "n" = "n" := by decide
  have hgo : goEqualFold "go" "go" = true := by decide
  have hsc : calculateScore "n" "n" ⟨"1", "d", "a", ["go"], []⟩ ["go"] = 1 := by
    simp [calculateScore, hq, hgo]
  simp [Search, searchCandidates, searchKinds, kindBlock, entryResult,
    profileResult, calculateProfileScore, hq, hsc]

/-- Witness for C7 at concrete entries: a mismatching tag filter zeroes a
capability entry, any tag filter zeroes a profile entry, and a concrete
tag-filtered search result is not a profile. -/
theorem c7_tag_filter_witness :
    calculateScore "q" "n" ⟨"1", "d", "a", ["web"], []⟩ ["k8s"] = 0 ∧
    calculateProfileScore "q" "n" ⟨"1", "d", "a", "p", []⟩ ["k8s"] = 0 ∧
    (⟨.skill, "n", "1", "d", ["go"], 1⟩ : SearchResult).kind ≠ .profile :=
  ⟨c7_tag_filter.1 "q" "n" ⟨"1", "d", "a", ["web"], []⟩ ["k8s"] (by decide) (by decide),
   c7_tag_filter.2.1 "q" "n" ⟨"1", "d", "a", "p", []⟩ ["k8s"] (by decide),
   c7_tag_filter.2.2 ⟨[("n", ⟨"1", "d", "a", ["go"], []⟩)], [], []⟩ "n"
     ⟨none, ["go"], 0⟩ ⟨.skill, "n", "1", "d", ["go"], 1⟩ (by decide)
     (by rw [search_tagged_eval]; exact List.mem_singleton.mpr rfl)⟩

/-! ### Claim C1 -/

theorem goContainsList_iff (s sub : List Char) :
    goContainsList s sub = true ↔ List.IsInfix sub s := by
  induction s with
  | nil =>
    simp only [goContainsList, List.isEmpty_iff, List.infix_nil]
  | cons c t ih =>
    simp only [goContainsList, Bool.or_eq_true, List.isPrefixOf_iff_prefix, ih]
    exact List.infix_cons_iff.symm

/-- The already-installed message always contains the pattern the checker
scans for, whatever the kind and name are. -/
theorem isAlreadyInstalledError_msg (kind : ItemKind) (name : String) :
    isAlreadyInstalledError (alreadyInstalledMsg kind name) = true := by
  unfold isAlreadyInstalledError goContains
  rw [goContainsList_iff]
  have htail : List.IsInfix ("already installed".data)
      ("\" is already installed (use --force to overwrite)".data) := by
    rw [← goContainsList_iff]
    decide
  have hsuffix : List.IsSuffix
      ("\" is already installed (use --force to overwrite)".data)
      (alreadyInstalledMsg kind name).data := by
    unfold alreadyInstalledMsg
    rw [String.data_append]
    exact List.suffix_append _ _
  exact htail.trans hsuffix.isInfix

/-- Claim C1 (amended): when the destination manifest already exists and
Force is unset, Install fails with the plain string error
kind-name-is-already-installed, and the condition is recognized by
isAlreadyInstalledError, which inspects the message text for the substring
pattern already-installed rather than checking a typed error value. -/
theorem c1_already_installed_amended (env : SourceEnv) (kind : ItemKind)
    (name dir : String) (opts : InstallOptions) (fs : FS)
    (hexist : (fsLookup fs (destPath dir kind name)).isSome = true)
    (hforce : opts.force = false) :
    (Install env kind name dir opts fs).res =
      .error (alreadyInstalledMsg kind name) ∧
    isAlreadyInstalledError (alreadyInstalledMsg kind name) = true := by
  constructor
  · simp only [Install, if_pos (And.intro hexist hforce)]
  · exact isAlreadyInstalledError_msg kind name

/-- Witness for the amended C1 at a concrete installed skill. -/
theorem c1_already_installed_amended_witness :
    (Install okEnv .skill "web-search" "home" ⟨false, false, false⟩
        [(destPath "home" .skill "web-search", "old")]).res =
      .error (alreadyInstalledMsg .skill "web-search") ∧
    isAlreadyInstalledError (alreadyInstalledMsg .skill "web-search") = true :=
  c1_already_installed_amended okEnv .skill "web-search" "home" ⟨false, false, false⟩
    [(destPath "home" .skill "web-search", "old")] (by decide) rfl

/-- Claim C1 counterexample: the already-installed condition is NOT
checkable from the returned error without inspecting its message text.
Install here fails although the destination manifest does not exist (the
manifest fetch fails), yet isAlreadyInstalledError - the only
discrimination the code offers - reports true, because the skill's name
makes the unrelated error message contain the scanned string pattern. -/
theorem c1_already_installed_counterexample :
    fsLookup [] (destPath "home" .skill "already installed") = none ∧
    (Install failEnv .skill "already installed" "home" ⟨false, false, false⟩ []).res =
      .error (fetchWrapMsg .skill "already installed" "connection refused") ∧
    isAlreadyInstalledError
      (fetchWrapMsg .skill "already installed" "connection refused") = true := by
  refine ⟨rfl, rfl, by decide⟩

/-! ### Claim C3 -/

theorem processDeps_error_identifies (env : SourceEnv) (dir : String)
    (opts : InstallOptions) :
    ∀ (deps : List (ItemKind × String)) (fs : FS) (e : String),
      (processDeps env dir opts deps fs).res = .error e →
      ∃ k n e0, (k, n) ∈ deps ∧ e = depWrapMsg k n e0 ∧
        ¬(opts.force = false ∧ isAlreadyInstalledError e0 = true)
  | [], fs, e => by
    intro h
    exact absurd h (by simp [processDeps])
  | (k, n) :: rest, fs, e => by
    intro h
    simp only [processDeps] at h
    cases hres : (installLeaf env k n dir (depOptsOf opts) fs).res with
    | ok v =>
      simp only [hres] at h
      obtain ⟨k', n', e0, hm, he, hh⟩ :=
        processDeps_error_identifies env dir opts rest _ e h
      exact ⟨k', n', e0, List.mem_cons_of_mem _ hm, he, hh⟩
    | error e1 =>
      simp only [hres] at h
      by_cases hsw : opts.force = false ∧ isAlreadyInstalledError e1 = true
      · rw [if_pos hsw] at h
        obtain ⟨k', n', e0, hm, he, hh⟩ :=
          processDeps_error_identifies env dir opts rest _ e h
        exact ⟨k', n', e0, List.mem_cons_of_mem _ hm, he, hh⟩
      · rw [if_neg hsw] at h
        have he : depWrapMsg k n e1 = e := by injection h
        exact ⟨k, n, e1, List.mem_cons_self _ _, he.symm, hsw⟩

/-- Claim C3: during profile dependency installation a failing dependency
aborts the whole operation with an error identifying the failed dependency
- every error out of processDeps is a dependency-wrapped message whose
underlying error does not satisfy the swallow condition, and a hard head
failure stops without touching the remaining dependencies - except exactly
when the dependency's error satisfies isAlreadyInstalledError while Force
is unset: that failure is swallowed and processing continues with the
remaining dependencies; and a dependency-phase error aborts Install before
the profile's own manifest is fetched or written. -/
theorem c3_dep_failure_policy :
    (∀ env dir opts (deps : List (ItemKind × String)) fs e,
      (processDeps env dir opts deps fs).res = .error e →
      ∃ k n e0, (k, n) ∈ deps ∧ e = depWrapMsg k n e0 ∧
        ¬(opts.force = false ∧ isAlreadyInstalledError e0 = true)) ∧
    (∀ env dir opts k n (rest : List (ItemKind × String)) fs e,
      (installLeaf env k n dir (depOptsOf opts) fs).res = .error e →
      ¬(opts.force = false ∧ isAlreadyInstalledError e = true) →
      processDeps env dir opts ((k, n) :: rest) fs =
        ⟨.error (depWrapMsg k n e),
          (installLeaf env k n dir (depOptsOf opts) fs).fs,
          Event.depInstall k n (depOptsOf opts) ::
            (installLeaf env k n dir (depOptsOf opts) fs).trace⟩) ∧
    (∀ env dir opts k n (rest : List (ItemKind × String)) fs e,
      (installLeaf env k n dir (depOptsOf opts) fs).res = .error e →
      opts.force = false → isAlreadyInstalledError e = true →
      (processDeps env dir opts ((k, n) :: rest) fs).res =
        (processDeps env dir opts rest
          (installLeaf env k n dir (depOptsOf opts) fs).fs).res) ∧
    (∀ env name dir opts fs e, opts.noDeps = false →
      ¬((fsLookup fs (destPath dir .profile name)).isSome = true ∧
        opts.force = false) →
      (installProfileDeps env name dir opts fs).res = .error e →
      Install env .profile name dir opts fs =
        ⟨.error e, (installProfileDeps env name dir opts fs).fs,
          (installProfileDeps env name dir opts fs).trace⟩) := by
  refine ⟨processDeps_error_identifies, ?_, ?_, ?_⟩
  · intro env dir opts k n rest fs e hres hhard
    simp only [processDeps, hres, if_neg hhard]
  · intro env dir opts k n rest fs e hres hforce halready
    simp only [processDeps, hres, if_pos (And.intro hforce halready)]
  · intro env name dir opts fs e hnodeps hguard herr
    simp [Install, if_neg hguard, hnodeps, herr]

/-- Witness for C3 at concrete dependency lists: a fetch-failing skill
dependency aborts with a wrapped message, while an already-installed
persona dependency is swallowed and the remaining dependency is still
processed. -/
theorem c3_dep_failure_policy_witness :
    (∃ k n e0, (k, n) ∈ [((ItemKind.skill), "s1")] ∧
      depWrapMsg .skill "s1" (fetchWrapMsg .skill "s1" "connection refused") =
        depWrapMsg k n e0 ∧
      ¬(false = false ∧ isAlreadyInstalledError e0 = true)) ∧
    processDeps failEnv "d" ⟨false, false, false⟩ [(.skill, "s1")] [] =
      ⟨.error (depWrapMsg .skill "s1" (fetchWrapMsg .skill "s1" "connection refused")),
        (installLeaf failEnv .skill "s1" "d" (depOptsOf ⟨false, false, false⟩) []).fs,
        Event.depInstall .skill "s1" (depOptsOf ⟨false, false, false⟩) ::
          (installLeaf failEnv .skill "s1" "d" (depOptsOf ⟨false, false, false⟩) []).trace⟩ ∧
    (processDeps okEnv "d" ⟨false, false, false⟩ [(.persona, "per"), (.skill, "s2")]
        [(destPath "d" .persona "per", "old")]).res =
      (processDeps okEnv "d" ⟨false, false, false⟩ [(.skill, "s2")]
        (installLeaf okEnv .persona "per" "d" (depOptsOf ⟨false, false, false⟩)
          [(destPath "d" .persona "per", "old")]).fs).res ∧
    Install failEnv .profile "nosuch" "home" ⟨false, false, false⟩ [] =
      ⟨.error (profileNotFoundMsg "nosuch"),
        (installProfileDeps failEnv "nosuch" "home" ⟨false, false, false⟩ []).fs,
        (installProfileDeps failEnv "nosuch" "home" ⟨false, false, false⟩ []).trace⟩ :=
  ⟨c3_dep_failure_policy.1 failEnv "d" ⟨false, false, false⟩ [(.skill, "s1")] []
      _ (by decide),
   c3_dep_failure_policy.2.1 failEnv "d" ⟨false, false, false⟩ .skill "s1" [] []
      (fetchWrapMsg .skill "s1" "connection refused") (by decide) (by decide),
   c3_dep_failure_policy.2.2.1 okEnv "d" ⟨false, false, false⟩ .persona "per"
      [(.skill, "s2")] [(destPath "d" .persona "per", "old")]
      (alreadyInstalledMsg .persona "per") (by decide) rfl (by decide),
   c3_dep_failure_policy.2.2.2 failEnv "nosuch" "home" ⟨false, false, false⟩ []
      (profileNotFoundMsg "nosuch") rfl (by decide) (by decide)⟩

/-! ### Claim C6 -/

theorem installLeaf_trace_events (env : SourceEnv) (k : ItemKind)
    (n dir : String) (opts : InstallOptions) (fs : FS) :
    ∀ e ∈ (installLeaf env k n dir opts fs).trace,
      e = Event.fetch k n ∨ ∃ p c, e = Event.write p c := by
  by_cases hg : (fsLookup fs (destPath dir k n)).isSome = true ∧ opts.force = false
  · simp [installLeaf, if_pos hg]
  · cases hfetch : env.fetchManifest k n with
    | error e1 => simp [installLeaf, if_neg hg, hfetch]
    | ok content =>
      by_cases hd : opts.dryRun = true
      · simp [installLeaf, if_neg hg, hfetch, hd]
      · simp only [installLeaf, if_neg hg, hfetch, if_neg hd]
        intro e he
        simp only [List.mem_cons, List.mem_singleton] at he
        rcases he with h | h | h
        · exact Or.inl h
        · exact Or.inr ⟨_, _, h⟩
        · cases h

theorem installLeaf_trace_no_dep (env : SourceEnv) (k : ItemKind)
    (n dir : String) (opts : InstallOptions) (fs : FS) :
    (installLeaf env k n dir opts fs).trace.filterMap depProj = [] := by
  by_cases hg : (fsLookup fs (destPath dir k n)).isSome = true ∧ opts.force = false
  · simp [installLeaf, if_pos hg]
  · cases hfetch : env.fetchManifest k n with
    | error e1 => simp [installLeaf, if_neg hg, hfetch, depProj]
    | ok content =>
      by_cases hd : opts.dryRun = true
      · simp [installLeaf, if_neg hg, hfetch, hd, depProj]
      · simp [installLeaf, if_neg hg, hfetch, if_neg hd, depProj]

theorem processDeps_trace_events (env : SourceEnv) (dir : String)
    (opts : InstallOptions) :
    ∀ (deps : List (ItemKind × String)) (fs : FS),
      ∀ e ∈ (processDeps env dir opts deps fs).trace,
        ∃ k n, (k, n) ∈ deps ∧
          (e = Event.depInstall k n (depOptsOf opts) ∨ e = Event.fetch k n ∨
            ∃ p c, e = Event.write p c)
  | [], fs => by simp [processDeps]
  | (k, n) :: rest, fs => by
    intro e he
    have hstep : ∀ e₁ ∈ Event.depInstall k n (depOptsOf opts) ::
        (installLeaf env k n dir (depOptsOf opts) fs).trace,
        ∃ k₂ n₂, (k₂, n₂) ∈ (k, n) :: rest ∧
          (e₁ = Event.depInstall k₂ n₂ (depOptsOf opts) ∨ e₁ = Event.fetch k₂ n₂ ∨
            ∃ p c, e₁ = Event.write p c) := by
      intro e₁ he₁
      rcases List.mem_cons.mp he₁ with h | h
      · exact ⟨k, n, List.mem_cons_self _ _, Or.inl h⟩
      · rcases installLeaf_trace_events env k n dir (depOptsOf opts) fs e₁ h with h2 | h2
        · exact ⟨k, n, List.mem_cons_self _ _, Or.inr (Or.inl h2)⟩
        · exact ⟨k, n, List.mem_cons_self _ _, Or.inr (Or.inr h2)⟩
    have hrest : ∀ (fs₂ : FS) (e₁ : Event),
        e₁ ∈ (processDeps env dir opts rest fs₂).trace →
        ∃ k₂ n₂, (k₂, n₂) ∈ (k, n) :: rest ∧
          (e₁ = Event.depInstall k₂ n₂ (depOptsOf opts) ∨ e₁ = Event.fetch k₂ n₂ ∨
            ∃ p c, e₁ = Event.write p c) := by
      intro fs₂ e₁ he₁
      obtain ⟨k₂, n₂, hm, hshape⟩ :=
        processDeps_trace_events env dir opts rest fs₂ e₁ he₁
      exact ⟨k₂, n₂, List.mem_cons_of_mem _ hm, hshape⟩
    simp only [processDeps] at he
    cases hres : (installLeaf env k n dir (depOptsOf opts) fs).res with
    | ok v =>
      simp only [hres] at he
      rcases List.mem_append.mp he with h | h
      · exact hstep e h
      · exact hrest _ e h
    | error e1 =>
      simp only [hres] at he
      by_cases hsw : opts.force = false ∧ isAlreadyInstalledError e1 = true
      · rw [if_pos hsw] at he
        rcases List.mem_append.mp he with h | h
        · exact hstep e h
        · exact hrest _ e h
      · rw [if_neg hsw] at he
        exact hstep e he

theorem profileDeps_not_profile (p : ProfileIndexEntry) :
    ∀ d ∈ profileDeps p, d.1 ≠ ItemKind.profile := by
  intro d hd
  unfold profileDeps at hd
  rcases List.mem_append.mp hd with h | h
  · split at h
    · cases h
    · rcases List.mem_singleton.mp h with rfl
      intro hc
      cases hc
  · obtain ⟨s, _, rfl⟩ := List.mem_map.mp h
    intro hc
    cases hc

theorem processDeps_schedule (env : SourceEnv) (dir : String)
    (opts : InstallOptions) :
    ∀ (deps : List (ItemKind × String)) (fs : FS),
      ∃ m, m ≤ deps.length ∧
        (processDeps env dir opts deps fs).trace.filterMap depProj =
          (deps.take m).map (fun d => (d.1, d.2, depOptsOf opts)) ∧
        ((processDeps env dir opts deps fs).res = .ok () → m = deps.length)
  | [], fs => ⟨0, by simp [processDeps]⟩
  | (k, n) :: rest, fs => by
    have hleaf := installLeaf_trace_no_dep env k n dir (depOptsOf opts) fs
    cases hres : (installLeaf env k n dir (depOptsOf opts) fs).res with
    | ok v =>
      obtain ⟨m, hm, htr, hok⟩ := processDeps_schedule env dir opts rest
        (installLeaf env k n dir (depOptsOf opts) fs).fs
      refine ⟨m + 1, by simpa using Nat.succ_le_succ hm, ?_, ?_⟩
      · simp only [processDeps, hres, List.filterMap_cons, List.filterMap_append,
          hleaf, depProj, List.take_succ_cons, List.map_cons, List.nil_append]
        rw [htr]
        rfl
      · intro hok2
        simp only [processDeps, hres] at hok2
        simp [hok hok2]
    | error e1 =>
      by_cases hsw : opts.force = false ∧ isAlreadyInstalledError e1 = true
      · obtain ⟨m, hm, htr, hok⟩ := processDeps_schedule env dir opts rest
          (installLeaf env k n dir (depOptsOf opts) fs).fs
        refine ⟨m + 1, by simpa using Nat.succ_le_succ hm, ?_, ?_⟩
        · simp only [processDeps, hres, if_pos hsw, List.filterMap_cons,
            List.filterMap_append, hleaf, depProj, List.take_succ_cons,
            List.map_cons, List.nil_append]
          rw [htr]
          rfl
        · intro hok2
          simp only [processDeps, hres, if_pos hsw] at hok2
          simp [hok hok2]
      · refine ⟨1, by simp, ?_, ?_⟩
        · simp only [processDeps, hres, if_neg hsw, List.filterMap_cons, hleaf,
            depProj, List.take_succ_cons, List.take_zero, List.map_cons,
            List.map_nil]
        · intro hok2
          simp only [processDeps, hres, if_neg hsw] at hok2
          cases hok2

/-- Claim C6: in a profile install with NoDeps unset, the dependency phase
runs strictly before the profile's own manifest is fetched or written: no
profile-manifest fetch occurs in the dependency trace, a dependency-phase
error makes Install return with exactly the dependency trace (the
profile's fetch never happens), and on dependency success the profile's
fetch event follows the complete dependency trace.  The dependencies are
processed sequentially in the fixed order given by profileDeps - the
referenced persona first when present, then the listed skills in list
order - each installed with the options depOptsOf opts, whose noDeps field
is true, so dependency recursion stops after one level; the schedule
conjunct exhibits the dependency-install events of the trace as exactly an
initial segment of that list, complete when the phase succeeds. -/
theorem c6_deps_before_profile (env : SourceEnv) (name dir : String)
    (opts : InstallOptions) (fs : FS) (ps : List (String × ProfileIndexEntry))
    (p : ProfileIndexEntry)
    (hidx : env.profilesIndex = .ok ps)
    (hlook : List.lookup name ps = some p)
    (hnodeps : opts.noDeps = false)
    (hguard : ¬((fsLookup fs (destPath dir .profile name)).isSome = true ∧
      opts.force = false)) :
    (installProfileDeps env name dir opts fs =
      processDeps env dir opts (profileDeps p) fs) ∧
    (∀ n', Event.fetch .profile n' ∉
      (processDeps env dir opts (profileDeps p) fs).trace) ∧
    (∀ e, (processDeps env dir opts (profileDeps p) fs).res = .error e →
      Install env .profile name dir opts fs =
        ⟨.error e, (processDeps env dir opts (profileDeps p) fs).fs,
          (processDeps env dir opts (profileDeps p) fs).trace⟩) ∧
    ((processDeps env dir opts (profileDeps p) fs).res = .ok () →
      ∃ t, (Install env .profile name dir opts fs).trace =
        (processDeps env dir opts (profileDeps p) fs).trace ++
          Event.fetch .profile name :: t) ∧
    (∃ m, m ≤ (profileDeps p).length ∧
      (processDeps env dir opts (profileDeps p) fs).trace.filterMap depProj =
        ((profileDeps p).take m).map (fun d => (d.1, d.2, depOptsOf opts)) ∧
      ((processDeps env dir opts (profileDeps p) fs).res = .ok () →
        m = (profileDeps p).length)) := by
  have hipd : installProfileDeps env name dir opts fs =
      processDeps env dir opts (profileDeps p) fs := by
    simp only [installProfileDeps, hidx, hlook]
  refine ⟨hipd, ?_, ?_, ?_, processDeps_schedule env dir opts (profileDeps p) fs⟩
  · intro n' hmem
    obtain ⟨k2, n2, hm, hshape⟩ :=
      processDeps_trace_events env dir opts (profileDeps p) fs _ hmem
    have hk2 := profileDeps_not_profile p (k2, n2) hm
    rcases hshape with h | h | ⟨q, c, h⟩ <;> cases h
    · exact hk2 rfl
  · intro e herr
    have herr2 : (installProfileDeps env name dir opts fs).res = .error e := by
      rw [hipd]; exact herr
    have h4 : Install env .profile name dir opts fs =
        ⟨.error e, (installProfileDeps env name dir opts fs).fs,
          (installProfileDeps env name dir opts fs).trace⟩ := by
      simp [Install, if_neg hguard, hnodeps, herr2]
    rw [hipd] at h4
    exact h4
  · intro hok
    simp only [Install]
    rw [if_neg hguard,
      if_pos (show True ∧ opts.noDeps = false from ⟨trivial, hnodeps⟩), hipd]
    simp only [hok]
    cases hfetch : env.fetchManifest .profile name with
    | error e1 => exact ⟨[], by simp [hfetch]⟩
    | ok content =>
      by_cases hd : opts.dryRun = true
      · exact ⟨[], by simp [hfetch, hd]⟩
      · exact ⟨[Event.write (destPath dir .profile name) content],
          by simp [hfetch, hd]⟩

/-- Witness for C6 at a concrete profile naming a persona and one skill. -/
theorem c6_deps_before_profile_witness :
    (installProfileDeps profEnv "p" "home" ⟨false, false, false⟩ [] =
      processDeps profEnv "home" ⟨false, false, false⟩
        (profileDeps ⟨"1", "d", "a", "per", ["s1"]⟩) []) ∧
    (∀ n', Event.fetch .profile n' ∉
      (processDeps profEnv "home" ⟨false, false, false⟩
        (profileDeps ⟨"1", "d", "a", "per", ["s1"]⟩) []).trace) ∧
    (∀ e, (processDeps profEnv "home" ⟨false, false, false⟩
        (profileDeps ⟨"1", "d", "a", "per", ["s1"]⟩) []).res = .error e →
      Install profEnv .profile "p" "home" ⟨false, false, false⟩ [] =
        ⟨.error e, (processDeps profEnv "home" ⟨false, false, false⟩
            (profileDeps ⟨"1", "d", "a", "per", ["s1"]⟩) []).fs,
          (processDeps profEnv "home" ⟨false, false, false⟩
            (profileDeps ⟨"1", "d", "a", "per", ["s1"]⟩) []).trace⟩) ∧
    ((processDeps profEnv "home" ⟨false, false, false⟩
        (profileDeps ⟨"1", "d", "a", "per", ["s1"]⟩) []).res = .ok () →
      ∃ t, (Install profEnv .profile "p" "home" ⟨false, false, false⟩ []).trace =
        (processDeps profEnv "home" ⟨false, false, false⟩
          (profileDeps ⟨"1", "d", "a", "per", ["s1"]⟩) []).trace ++
          Event.fetch .profile "p" :: t) ∧
    (∃ m, m ≤ (profileDeps ⟨"1", "d", "a", "per", ["s1"]⟩).length ∧
      (processDeps profEnv "home" ⟨false, false, false⟩
        (profileDeps ⟨"1", "d", "a", "per", ["s1"]⟩) []).trace.filterMap depProj =
        ((profileDeps ⟨"1", "d", "a", "per", ["s1"]⟩).take m).map
          (fun d => (d.1, d.2, depOptsOf ⟨false, false, false⟩)) ∧
      ((processDeps profEnv "home" ⟨false, false, false⟩
          (profileDeps ⟨"1", "d", "a", "per", ["s1"]⟩) []).res = .ok () →
        m = (profileDeps ⟨"1", "d", "a", "per", ["s1"]⟩).length)) :=
  c6_deps_before_profile profEnv "p" "home" ⟨false, false, false⟩ []
    [("p", ⟨"1", "d", "a", "per", ["s1"]⟩)] ⟨"1", "d", "a", "per", ["s1"]⟩
    rfl rfl rfl (by decide)

/-! ### Claim C4

The Go code sorts with sort.Slice under the strict comparator
score-descending-then-name-ascending and iterates map entries in an
unspecified order.  sort.Slice is documented as not stable, so the
program guarantees only sortSliceSpec: the final slice is a permutation of
the candidates that is pairwise ordered by the non-strict comparator, and
the relative order of results tied on both score and name - possible
across kinds, since name uniqueness holds per kind only - is unspecified.
The claim is settled over SearchOutcome, the set of all admissible
returned lists: the counterexample exhibits two distinct admissible
outputs for one and the same index, refuting the claimed determinism and
the strict tie-break; the amended theorem proves the non-strict ordering
for every admissible output, and recovers strictness and uniqueness -
hence stability under per-kind reordering - exactly when no two candidates
share both score and name. -/

theorem resLE_total (a b : SearchResult) : (resLE a b || resLE b a) = true := by
  simp only [resLE, Bool.or_eq_true, Bool.and_eq_true, decide_eq_true_eq]
  rcases lt_trichotomy a.score b.score with h | h | h
  · exact Or.inr (Or.inl h)
  · rcases le_total a.name b.name with hn | hn
    · exact Or.inl (Or.inr ⟨h, hn⟩)
    · exact Or.inr (Or.inr ⟨h.symm, hn⟩)
  · exact Or.inl (Or.inl h)

theorem resLE_trans (a b c : SearchResult) (h1 : resLE a b = true)
    (h2 : resLE b c = true) : resLE a c = true := by
  simp only [resLE, Bool.or_eq_true, Bool.and_eq_true, decide_eq_true_eq] at h1 h2 ⊢
  rcases h1 with h1 | ⟨h1e, h1n⟩
  · rcases h2 with h2 | ⟨h2e, h2n⟩
    · exact Or.inl (h2.trans h1)
    · exact Or.inl (h2e ▸ h1)
  · rcases h2 with h2 | ⟨h2e, h2n⟩
    · exact Or.inl (lt_of_lt_of_eq h2 h1e.symm)
    · exact Or.inr ⟨h1e.trans h2e, h1n.trans h2n⟩

/-- Two results each allowed before the other by the comparator agree on
score and name: the comparator ties exactly on equal score and name. -/
theorem resLE_antisymm_data (a b : SearchResult) (h1 : resLE a b = true)
    (h2 : resLE b a = true) : a.score = b.score ∧ a.name = b.name := by
  simp only [resLE, Bool.or_eq_true, Bool.and_eq_true, decide_eq_true_eq] at h1 h2
  rcases h1 with h1 | ⟨h1e, h1n⟩
  · rcases h2 with h2 | ⟨h2e, h2n⟩
    · exact absurd (h1.trans h2) (lt_irrefl _)
    · rw [h2e] at h1
      exact absurd h1 (lt_irrefl _)
  · rcases h2 with h2 | ⟨h2e, h2n⟩
    · rw [h1e] at h2
      exact absurd h2 (lt_irrefl _)
    · exact ⟨h1e, le_antisymm h1n h2n⟩

/-- The deterministic Search function realizes an admissible sort.Slice
outcome: the relational model subsumes the executable one. -/
theorem searchOutcome_search (idx : Indexes) (query : String)
    (opts : SearchOptions) : SearchOutcome idx query opts (Search idx query opts) :=
  ⟨(searchCandidates idx query opts).mergeSort resLE,
    ⟨List.mergeSort_perm _ _,
      List.sorted_mergeSort resLE_trans resLE_total _⟩,
    by simp only [Search]⟩

/-- Two comparator-sorted permutations of one another are equal when no
two of their elements are tied on both score and name. -/
theorem sorted_perm_eq_of_tie_free :
    ∀ (l₁ l₂ : List SearchResult), l₁.Perm l₂ →
      l₁.Pairwise (fun a b => resLE a b = true) →
      l₂.Pairwise (fun a b => resLE a b = true) →
      (∀ a ∈ l₁, ∀ b ∈ l₁, a.score = b.score → a.name = b.name → a = b) →
      l₁ = l₂
  | [], l₂, hperm, _, _, _ => (hperm.symm.eq_nil).symm
  | a :: t₁, l₂, hperm, h₁, h₂, hfree => by
    cases l₂ with
    | nil => exact absurd hperm.eq_nil (by simp)
    | cons b t₂ =>
      by_cases hab : a = b
      · subst hab
        have ht : t₁.Perm t₂ := hperm.cons_inv
        have htail := sorted_perm_eq_of_tie_free t₁ t₂ ht
          (List.pairwise_cons.mp h₁).2 (List.pairwise_cons.mp h₂).2
          (fun x hx y hy => hfree x (List.mem_cons_of_mem _ hx) y
            (List.mem_cons_of_mem _ hy))
        rw [htail]
      · have hb₁ : b ∈ t₁ := by
          have hmem : b ∈ a :: t₁ := hperm.mem_iff.mpr (List.mem_cons_self _ _)
          rcases List.mem_cons.mp hmem with h | h
          · exact absurd h.symm hab
          · exact h
        have ha₂ : a ∈ t₂ := by
          have hmem : a ∈ b :: t₂ := hperm.mem_iff.mp (List.mem_cons_self _ _)
          rcases List.mem_cons.mp hmem with h | h
          · exact absurd h hab
          · exact h
        have hLEab : resLE a b = true := (List.pairwise_cons.mp h₁).1 b hb₁
        have hLEba : resLE b a = true := (List.pairwise_cons.mp h₂).1 a ha₂
        obtain ⟨hseq, hname⟩ := resLE_antisymm_data a b hLEab hLEba
        exact absurd (hfree a (List.mem_cons_self _ _) b
          (List.mem_cons_of_mem _ hb₁) hseq hname) hab

theorem entryResult_names_sublist (q : String) (t : List String) (k : ItemKind) :
    ∀ (l : List (String × IndexEntry)),
      List.Sublist ((l.filterMap (entryResult q t k)).map SearchResult.name)
        (l.map Prod.fst)
  | [] => List.nil_sublist _
  | p :: rest => by
    cases h : entryResult q t k p with
    | none =>
      simp only [List.filterMap_cons, h, List.map_cons]
      exact (entryResult_names_sublist q t k rest).cons _
    | some r =>
      simp only [List.filterMap_cons, h, List.map_cons]
      have hn : r.name = p.1 := (entryResult_some q t k p r h).2.2
      rw [hn]
      exact (entryResult_names_sublist q t k rest).cons₂ _

theorem profileResult_names_sublist (q : String) (t : List String) :
    ∀ (l : List (String × ProfileIndexEntry)),
      List.Sublist ((l.filterMap (profileResult q t)).map SearchResult.name)
        (l.map Prod.fst)
  | [] => List.nil_sublist _
  | p :: rest => by
    cases h : profileResult q t p with
    | none =>
      simp only [List.filterMap_cons, h, List.map_cons]
      exact (profileResult_names_sublist q t rest).cons _
    | some r =>
      simp only [List.filterMap_cons, h, List.map_cons]
      have hn : r.name = p.1 := (profileResult_some q t p r h).2.2
      rw [hn]
      exact (profileResult_names_sublist q t rest).cons₂ _

theorem kindBlock_names_nodup (idx : Indexes) (q : String) (t : List String)
    (hs : (idx.skills.map Prod.fst).Nodup)
    (hp : (idx.personas.map Prod.fst).Nodup)
    (hr : (idx.profiles.map Prod.fst).Nodup) :
    ∀ k, ((kindBlock idx q t k).map SearchResult.name).Nodup := by
  intro k
  cases k
  · exact hs.sublist (entryResult_names_sublist q t .skill idx.skills)
  · exact hp.sublist (entryResult_names_sublist q t .persona idx.personas)
  · exact hr.sublist (profileResult_names_sublist q t idx.profiles)

theorem flat_blocks_nodup (idx : Indexes) (q : String) (t : List String)
    (hnames : ∀ k, ((kindBlock idx q t k).map SearchResult.name).Nodup) :
    ∀ (kinds : List ItemKind),
      kinds.Pairwise (fun x y => kindRank x < kindRank y) →
      (kinds.flatMap (kindBlock idx q t)).Nodup
  | [], _ => by simp
  | k :: ks, hpw => by
    simp only [List.flatMap_cons]
    rw [List.nodup_append]
    obtain ⟨hhead, htail⟩ := List.pairwise_cons.mp hpw
    refine ⟨(hnames k).of_map _, flat_blocks_nodup idx q t hnames ks htail, ?_⟩
    intro a ha hb
    obtain ⟨k2, hk2, hb2⟩ := List.mem_flatMap.mp hb
    have e1 : a.kind = k := (mem_kindBlock idx q t k a ha).2
    have e2 : a.kind = k2 := (mem_kindBlock idx q t k2 a hb2).2
    have hlt := hhead k2 hk2
    rw [← e1, ← e2] at hlt
    exact absurd hlt (lt_irrefl _)

theorem searchKinds_rank_sorted (opts : SearchOptions) :
    (searchKinds opts).Pairwise (fun x y => kindRank x < kindRank y) := by
  unfold searchKinds
  cases opts.kind with
  | none => decide
  | some k => simp

theorem kindBlock_perm (idx idx' : Indexes) (q : String) (t : List String)
    (es : idx.skills.Perm idx'.skills) (ep : idx.personas.Perm idx'.personas)
    (er : idx.profiles.Perm idx'.profiles) :
    ∀ k, (kindBlock idx q t k).Perm (kindBlock idx' q t k) := by
  intro k
  cases k
  · exact es.filterMap _
  · exact ep.filterMap _
  · exact er.filterMap _

theorem flat_blocks_perm (idx idx' : Indexes) (q : String) (t : List String)
    (hbp : ∀ k, (kindBlock idx q t k).Perm (kindBlock idx' q t k)) :
    ∀ (kinds : List ItemKind),
      (kinds.flatMap (kindBlock idx q t)).Perm (kinds.flatMap (kindBlock idx' q t))
  | [] => List.Perm.refl _
  | k :: ks => by
    simp only [List.flatMap_cons]
    exact (hbp k).append (flat_blocks_perm idx idx' q t hbp ks)

/-- Evaluation of the candidate list for the counterexample index: a skill
and a persona of the same name, both exact matches for the query. -/
theorem search_tie_candidates_eval :
    searchCandidates
      ⟨[("a", ⟨"1", "d", "au", [], []⟩)], [("a", ⟨"1", "d", "au", [], []⟩)], []⟩
      "a" ⟨none, [], 0⟩ =
      [⟨.skill, "a", "1", "d", [], 1⟩, ⟨.persona, "a", "1", "d", [], 1⟩] := by
  have hq : goToLower "a" = "a" := by decide
  have hsc : calculateScore "a" "a" ⟨"1", "d", "au", [], []⟩ [] = 1 := by
    simp [calculateScore, hq]
  simp [searchCandidates, searchKinds, kindBlock, entryResult, hq, hsc]

/-- Claim C4 counterexample: a skill and a persona share the name and the
score (names are unique per kind, so this index is well formed), and the
unstable sort determines no order between them: both relative orders are
admissible returned lists for one and the same index - the output is not
determined even without reordering the enumeration, a fortiori not stable
under it - and the strict by-name tie-break fails on such an output. -/
theorem c4_search_stability_counterexample :
    SearchOutcome
      ⟨[("a", ⟨"1", "d", "au", [], []⟩)], [("a", ⟨"1", "d", "au", [], []⟩)], []⟩
      "a" ⟨none, [], 0⟩
      [⟨.skill, "a", "1", "d", [], 1⟩, ⟨.persona, "a", "1", "d", [], 1⟩] ∧
    SearchOutcome
      ⟨[("a", ⟨"1", "d", "au", [], []⟩)], [("a", ⟨"1", "d", "au", [], []⟩)], []⟩
      "a" ⟨none, [], 0⟩
      [⟨.persona, "a", "1", "d", [], 1⟩, ⟨.skill, "a", "1", "d", [], 1⟩] ∧
    ([⟨.skill, "a", "1", "d", [], 1⟩, ⟨.persona, "a", "1", "d", [], 1⟩] :
      List SearchResult) ≠
      [⟨.persona, "a", "1", "d", [], 1⟩, ⟨.skill, "a", "1", "d", [], 1⟩] ∧
    ¬ ([⟨.skill, "a", "1", "d", [], 1⟩, ⟨.persona, "a", "1", "d", [], 1⟩] :
        List SearchResult).Pairwise resOrderStrict := by
  refine ⟨?_, ?_, by decide, ?_⟩
  · refine ⟨[⟨.skill, "a", "1", "d", [], 1⟩, ⟨.persona, "a", "1", "d", [], 1⟩],
      ⟨search_tie_candidates_eval ▸ List.Perm.refl _, ?_⟩, by norm_num⟩
    refine List.pairwise_cons.mpr ⟨?_, List.pairwise_singleton _ _⟩
    intro b hb
    rcases List.mem_singleton.mp hb with rfl
    simp only [resLE, Bool.or_eq_true, Bool.and_eq_true, decide_eq_true_eq]
    exact Or.inr ⟨by trivial, le_refl _⟩
  · refine ⟨[⟨.persona, "a", "1", "d", [], 1⟩, ⟨.skill, "a", "1", "d", [], 1⟩],
      ⟨search_tie_candidates_eval ▸
        List.Perm.swap (⟨.skill, "a", "1", "d", [], 1⟩ : SearchResult)
          (⟨.persona, "a", "1", "d", [], 1⟩ : SearchResult) [], ?_⟩, by norm_num⟩
    refine List.pairwise_cons.mpr ⟨?_, List.pairwise_singleton _ _⟩
    intro b hb
    rcases List.mem_singleton.mp hb with rfl
    simp only [resLE, Bool.or_eq_true, Bool.and_eq_true, decide_eq_true_eq]
    exact Or.inr ⟨by trivial, le_refl _⟩
  · intro h
    have hpair := (List.pairwise_cons.mp h).1
      (⟨.persona, "a", "1", "d", [], 1⟩ : SearchResult)
      (List.mem_singleton.mpr rfl)
    rcases hpair with h1 | ⟨_, h2⟩
    · exact absurd h1 (lt_irrefl _)
    · exact absurd h2 (lt_irrefl _)

/-- Claim C4 (amended): every list the unstable sort may return is pairwise
ordered by descending score with score ties in non-strict ascending name
order; and when no two candidate results share both score and name - which
per-kind name uniqueness does not ensure across kinds - the tie-break is
strict and the returned list is unique: any admissible output equals any
admissible output for per-kind reorderings of the index maps, so the
result does not depend on the order in which the index entries are
enumerated.  The hypotheses on names being unique within each index state
the invariant Go's index maps provide. -/
theorem c4_search_order_stability (idx idx' : Indexes) (query : String)
    (opts : SearchOptions) (out out' : List SearchResult)
    (hs : (idx.skills.map Prod.fst).Nodup)
    (hp : (idx.personas.map Prod.fst).Nodup)
    (hr : (idx.profiles.map Prod.fst).Nodup)
    (es : idx.skills.Perm idx'.skills)
    (ep : idx.personas.Perm idx'.personas)
    (er : idx.profiles.Perm idx'.profiles)
    (ho : SearchOutcome idx query opts out)
    (ho' : SearchOutcome idx' query opts out') :
    out.Pairwise resOrder ∧
    ((∀ a ∈ searchCandidates idx query opts,
        ∀ b ∈ searchCandidates idx query opts,
        a.score = b.score → a.name = b.name → a = b) →
      out.Pairwise resOrderStrict ∧ out = out') := by
  obtain ⟨r1, ⟨hperm1, hpw1⟩, hout1⟩ := ho
  obtain ⟨r2, ⟨hperm2, hpw2⟩, hout2⟩ := ho'
  have hsub1 : List.Sublist out r1 := by
    rw [hout1]
    split
    · exact List.take_sublist _ _
    · exact List.Sublist.refl _
  constructor
  · refine (hpw1.imp ?_).sublist hsub1
    intro a b hle
    simp only [resLE, Bool.or_eq_true, Bool.and_eq_true, decide_eq_true_eq] at hle
    exact hle
  · intro hfree
    have hCC' : (searchCandidates idx query opts).Perm
        (searchCandidates idx' query opts) :=
      flat_blocks_perm idx idx' (goToLower query) opts.tags
        (kindBlock_perm idx idx' (goToLower query) opts.tags es ep er)
        (searchKinds opts)
    have hr12 : r1.Perm r2 := hperm1.trans (hCC'.trans hperm2.symm)
    have hfree1 : ∀ a ∈ r1, ∀ b ∈ r1,
        a.score = b.score → a.name = b.name → a = b := by
      intro a ha b hb
      exact hfree a (hperm1.subset ha) b (hperm1.subset hb)
    have hreq : r1 = r2 := sorted_perm_eq_of_tie_free r1 r2 hr12 hpw1 hpw2 hfree1
    have houteq : out = out' := by
      rw [hout1, hout2, hreq]
    refine ⟨?_, houteq⟩
    have hnames := kindBlock_names_nodup idx (goToLower query) opts.tags hs hp hr
    have hCnod : (searchCandidates idx query opts).Nodup :=
      flat_blocks_nodup idx (goToLower query) opts.tags hnames
        (searchKinds opts) (searchKinds_rank_sorted opts)
    have hr1nod : r1.Nodup := hperm1.symm.nodup hCnod
    have houtnod : out.Nodup := hr1nod.sublist hsub1
    rw [List.pairwise_iff_forall_sublist]
    intro a b hab
    have hneq : a ≠ b := List.pairwise_iff_forall_sublist.mp houtnod hab
    have hle : resLE a b = true :=
      List.pairwise_iff_forall_sublist.mp (hpw1.sublist hsub1) hab
    have haC : a ∈ searchCandidates idx query opts :=
      hperm1.subset (hsub1.subset (hab.subset (by simp)))
    have hbC : b ∈ searchCandidates idx query opts :=
      hperm1.subset (hsub1.subset (hab.subset (by simp)))
    simp only [resLE, Bool.or_eq_true, Bool.and_eq_true, decide_eq_true_eq] at hle
    rcases hle with h | ⟨hseq, hnle⟩
    · exact Or.inl h
    · rcases lt_or_eq_of_le hnle with hlt | heqn
      · exact Or.inr ⟨hseq, hlt⟩
      · exact absurd (hfree a haC b hbC hseq heqn) hneq

/-- Evaluation of the candidate list for the witness index: of two skill
entries only the exact-match one scores positively. -/
theorem search_ab_candidates_eval :
    searchCandidates
      ⟨[("a", ⟨"1", "d", "au", [], []⟩), ("b", ⟨"1", "x", "au", [], []⟩)], [], []⟩
      "a" ⟨none, [], 0⟩ = [⟨.skill, "a", "1", "d", [], 1⟩] := by
  have hq : goToLower "a" = "a" := by decide
  have hsc1 : calculateScore "a" "a" ⟨"1", "d", "au", [], []⟩ [] = 1 := by
    simp [calculateScore, hq]
  have hb1 : ¬ (goToLower "b" = "a") := by decide
  have hb2 : goContains (goToLower "b") "a" = false := by decide
  have hb3 : goContains (goToLower "x") "a" = false := by decide
  have hsc2 : calculateScore "a" "b" ⟨"1", "x", "au", [], []⟩ [] = 0 := by
    simp [calculateScore, hb1, hb2, hb3]
  simp [searchCandidates, searchKinds, kindBlock, entryResult, hq, hsc1, hsc2]

/-- Witness for C4: a concrete two-entry skill index whose candidates are
tie-free; its deterministic output is an admissible outcome, is strictly
ordered, and equals the output for the reordered index. -/
theorem c4_search_order_stability_witness :
    (Search ⟨[("a", ⟨"1", "d", "au", [], []⟩), ("b", ⟨"1", "x", "au", [], []⟩)],
        [], []⟩ "a" ⟨none, [], 0⟩).Pairwise resOrder ∧
    (Search ⟨[("a", ⟨"1", "d", "au", [], []⟩), ("b", ⟨"1", "x", "au", [], []⟩)],
        [], []⟩ "a" ⟨none, [], 0⟩).Pairwise resOrderStrict ∧
    Search ⟨[("a", ⟨"1", "d", "au", [], []⟩), ("b", ⟨"1", "x", "au", [], []⟩)],
        [], []⟩ "a" ⟨none, [], 0⟩ =
      Search ⟨[("b", ⟨"1", "x", "au", [], []⟩), ("a", ⟨"1", "d", "au", [], []⟩)],
        [], []⟩ "a" ⟨none, [], 0⟩ := by
  have h := c4_search_order_stability
    (⟨[("a", ⟨"1", "d", "au", [], []⟩), ("b", ⟨"1", "x", "au", [], []⟩)], [], []⟩ :
      Indexes)
    (⟨[("b", ⟨"1", "x", "au", [], []⟩), ("a", ⟨"1", "d", "au", [], []⟩)], [], []⟩ :
      Indexes)
    "a" ⟨none, [], 0⟩ _ _ (by decide) (by decide) (by decide)
    (List.Perm.swap (("b", ⟨"1", "x", "au", [], []⟩) : String × IndexEntry)
      (("a", ⟨"1", "d", "au", [], []⟩) : String × IndexEntry) [])
    (List.Perm.refl _) (List.Perm.refl _)
    (searchOutcome_search _ "a" ⟨none, [], 0⟩)
    (searchOutcome_search _ "a" ⟨none, [], 0⟩)
  have h2 := h.2 (by
    intro a ha b hb
    rw [search_ab_candidates_eval] at ha hb
    rcases List.mem_singleton.mp ha with rfl
    rcases List.mem_singleton.mp hb with rfl
    intro _ _
    rfl)
  exact ⟨h.1, h2.1, h2.2⟩

end VegaPopulation
